import Mathlib

/-!
Verification of the WebRTC signaling server (`app.py`).

The server keeps an in-memory registry
`rooms : { room_id : { user_id : { username, sid } } }` and reacts to
SocketIO events (`join-room`, `leave-room`, `disconnect`, `offer`,
`answer`, `ice-candidate`, `get-room-info`).

Python dictionaries are insertion-ordered, so the registry is embedded as
an association list: assignment to a fresh key appends at the end,
assignment to a present key updates the value in place, `del` removes the
entry.  Besides the registry, the model tracks the SocketIO room
subscriptions (which connection ids are subscribed to which broadcast
room), since `emit(..., room=r, skip_sid=s)` delivers to the subscribers
of `r` except `s`.  Each handler returns the new server state together
with the list of emitted messages; every emitted message carries its
resolved recipient list (resolved against the subscription state at the
moment the `emit` runs, as in the code).
-/

/-- A SocketIO connection id (`request.sid`). -/
abbrev Sid := String

/-- The per-member record stored in a room: `{'username': ..., 'sid': ...}`. -/
structure MemberInfo where
  username : String
  sid : Sid
deriving DecidableEq, Repr

/-- A room: Python dict from userId to member record, insertion-ordered. -/
abbrev RoomMap := List (String × MemberInfo)

/-- The registry `rooms`: Python dict from roomId to room. -/
abbrev Registry := List (String × RoomMap)

/-- First-match lookup, the semantics of `d[k]` / `k in d` on a Python
dict embedded as an association list. -/
def dlookup {β : Type} : List (String × β) → String → Option β
  | [], _ => none
  | (k, v) :: rest, key => if k = key then some v else dlookup rest key

/-- `k in d`. -/
def dcontains {β : Type} (d : List (String × β)) (k : String) : Bool :=
  (dlookup d k).isSome

/-- `d[k] = v`: update in place when the key is present, append otherwise
(Python dicts keep the original position of an updated key). -/
def dinsert {β : Type} : List (String × β) → String → β → List (String × β)
  | [], key, v => [(key, v)]
  | (k, w) :: rest, key, v =>
      if k = key then (k, v) :: rest else (k, w) :: dinsert rest key v

/-- `del d[k]`: drop the entry with the key (first occurrence; keys are
unique in a Python dict). -/
def derase {β : Type} : List (String × β) → String → List (String × β)
  | [], _ => []
  | (k, w) :: rest, key => if k = key then rest else (k, w) :: derase rest key

/-- SocketIO broadcast-room subscriptions: room name to subscribed sids. -/
abbrev SockRooms := List (String × List Sid)

/-- `join_room(r)` for connection `s`: subscribe `s` to room `r`. -/
def sockJoin (sock : SockRooms) (r : String) (s : Sid) : SockRooms :=
  match dlookup sock r with
  | none => dinsert sock r [s]
  | some l => if l.contains s then sock else dinsert sock r (l ++ [s])

/-- `leave_room(r)` for connection `s`: unsubscribe `s` from room `r`
(the subscription entry disappears when it empties). -/
def sockLeave (sock : SockRooms) (r : String) (s : Sid) : SockRooms :=
  match dlookup sock r with
  | none => sock
  | some l =>
      if (l.filter (fun x => x != s)).isEmpty then derase sock r
      else dinsert sock r (l.filter (fun x => x != s))

/-- The payloads of the outbound events of `app.py`. -/
inductive Payload where
  /-- `existing-users {users: [{userId, username}]}` -/
  | userList : List (String × String) → Payload
  /-- `user-joined` / `user-left {userId, username}` -/
  | userInfo : String → String → Payload
  /-- `room-full {message}` -/
  | text : String → Payload
  /-- relayed `offer` / `answer` / `ice-candidate`:
  the opaque payload, `fromUserId`, and `fromUsername` when present -/
  | relay : String → String → Option String → Payload
  /-- `room-info {roomId, userCount, users}` -/
  | roomInfo : Option String → Nat → List String → Payload
deriving DecidableEq, Repr

/-- One `emit` call: event name, payload, and the resolved recipients. -/
structure EmitMsg where
  event : String
  payload : Payload
  recips : List Sid
deriving DecidableEq, Repr

/-- The whole server state: the registry plus the SocketIO subscriptions. -/
structure ServerState where
  rooms : Registry
  sock : SockRooms
deriving DecidableEq, Repr

/-- Lines 84-87 of `app.py`: create the room if it does not exist. -/
def ensureRoom (reg : Registry) (r : String) : Registry :=
  if dcontains reg r then reg else dinsert reg r []

/-- The room the capacity check and the snapshot read after the
create-if-absent step. -/
def preRoom (reg : Registry) (r : String) : RoomMap :=
  (dlookup (ensureRoom reg r) r).getD []

/-- `handle_join_room` (lines 69-118).  Creates the room if absent,
rejects with `room-full` when it already holds 6 members, otherwise
snapshots the existing users, stores the member, subscribes the
connection, sends `existing-users` to the joiner and broadcasts
`user-joined` to the room skipping the joiner's sid. -/
def handle_join_room (st : ServerState) (sid : Sid) (roomId userId username : String) :
    ServerState × List EmitMsg :=
  if 6 ≤ (preRoom st.rooms roomId).length then
    ({ st with rooms := ensureRoom st.rooms roomId },
     [⟨"room-full", Payload.text "Room is full (max 6 users)", [sid]⟩])
  else
    (⟨dinsert (ensureRoom st.rooms roomId) roomId
        (dinsert (preRoom st.rooms roomId) userId ⟨username, sid⟩),
      sockJoin st.sock roomId sid⟩,
     [⟨"existing-users",
        Payload.userList ((preRoom st.rooms roomId).map (fun p => (p.1, p.2.username))),
        [sid]⟩,
      ⟨"user-joined", Payload.userInfo userId username,
        ((dlookup (sockJoin st.sock roomId sid) roomId).getD []).filter
          (fun x => x != sid)⟩])

/-- `handle_leave_room` (lines 121-144).  When the room and the member
exist: remove the member, unsubscribe the caller, broadcast `user-left`
to the room (the caller just unsubscribed, so it is not a recipient), and
delete the room if it emptied. -/
def handle_leave_room (st : ServerState) (sid : Sid) (roomId userId : String) :
    ServerState × List EmitMsg :=
  match dlookup st.rooms roomId with
  | none => (st, [])
  | some room =>
    match dlookup room userId with
    | none => (st, [])
    | some info =>
      (⟨(if (derase room userId).isEmpty then derase st.rooms roomId
         else dinsert st.rooms roomId (derase room userId)),
        sockLeave st.sock roomId sid⟩,
       [⟨"user-left", Payload.userInfo userId info.username,
         (dlookup (sockLeave st.sock roomId sid) roomId).getD []⟩])

/-- The scan of `handle_disconnect` over one room (lines 48-51): the
first member whose stored sid matches, with its username. -/
def findUser : RoomMap → Sid → Option (String × String)
  | [], _ => none
  | (u, info) :: rest, s =>
      if info.sid = s then some (u, info.username) else findUser rest s

/-- The loop of `handle_disconnect` (lines 46-66): walk the rooms in
order, remove the first member whose sid matches (deleting the room if it
empties), and report `(roomId, userId, username)` of the removed member. -/
def removeBySid : Registry → Sid → Registry × Option (String × String × String)
  | [], _ => ([], none)
  | (r, room) :: rest, s =>
    match findUser room s with
    | some (u, name) =>
        ((if (derase room u).isEmpty then rest else (r, derase room u) :: rest),
         some (r, u, name))
    | none =>
        let q := removeBySid rest s
        ((r, room) :: q.1, q.2)

/-- `handle_disconnect` (lines 39-66).  The `user-left` broadcast runs
before the transport drops the subscriptions, so its recipients are the
current subscribers of the room. -/
def handle_disconnect (st : ServerState) (s : Sid) : ServerState × List EmitMsg :=
  match removeBySid st.rooms s with
  | (_, none) => (st, [])
  | (rooms2, some (r, u, name)) =>
      (⟨rooms2, st.sock⟩,
       [⟨"user-left", Payload.userInfo u name, (dlookup st.sock r).getD []⟩])

/-- `handle_offer` (lines 147-163): relay to the stored sid of the
target, with `offer`, `fromUserId` and `fromUsername`; silently drop when
the room or the target is absent. -/
def handle_offer (st : ServerState) (roomId targetUserId fromUserId fromUsername payload : String) :
    ServerState × List EmitMsg :=
  match dlookup st.rooms roomId with
  | none => (st, [])
  | some room =>
    match dlookup room targetUserId with
    | none => (st, [])
    | some info =>
        (st, [⟨"offer", Payload.relay payload fromUserId (some fromUsername), [info.sid]⟩])

/-- `handle_answer` (lines 166-181): like `handle_offer` but the payload
carries only `answer` and `fromUserId`. -/
def handle_answer (st : ServerState) (roomId targetUserId fromUserId payload : String) :
    ServerState × List EmitMsg :=
  match dlookup st.rooms roomId with
  | none => (st, [])
  | some room =>
    match dlookup room targetUserId with
    | none => (st, [])
    | some info =>
        (st, [⟨"answer", Payload.relay payload fromUserId none, [info.sid]⟩])

/-- `handle_ice_candidate` (lines 184-199): like `handle_answer` with the
`candidate` payload. -/
def handle_ice_candidate (st : ServerState) (roomId targetUserId fromUserId payload : String) :
    ServerState × List EmitMsg :=
  match dlookup st.rooms roomId with
  | none => (st, [])
  | some room =>
    match dlookup room targetUserId with
    | none => (st, [])
    | some info =>
        (st, [⟨"ice-candidate", Payload.relay payload fromUserId none, [info.sid]⟩])

/-- Python truthiness of `data.get('roomId')`: `None` and the empty
string are falsy. -/
def pyTruthy (s : Option String) : Bool :=
  match s with
  | none => false
  | some v => !(v == "")

/-- `handle_get_room_info` (lines 202-218): `if room_id and room_id in
rooms` answer count and usernames, else the zeroed reply. -/
def handle_get_room_info (st : ServerState) (sid : Sid) (roomId : Option String) :
    ServerState × List EmitMsg :=
  match (if pyTruthy roomId then
           match roomId with
           | some r => dlookup st.rooms r
           | none => none
         else none) with
  | some room =>
      (st, [⟨"room-info",
             Payload.roomInfo roomId room.length (room.map (fun p => p.2.username)),
             [sid]⟩])
  | none =>
      (st, [⟨"room-info", Payload.roomInfo roomId 0 [], [sid]⟩])

/-- A sequence of `join-room` events, each `(sid, roomId, userId, username)`,
run in order. -/
def runJoins : ServerState → List (Sid × String × String × String) → ServerState
  | st, [] => st
  | st, (sid, r, u, n) :: rest => runJoins (handle_join_room st sid r u n).1 rest

/-- A concrete room at capacity: six members. -/
def fullRoom : RoomMap :=
  [("u1", ⟨"a", "s1"⟩), ("u2", ⟨"b", "s2"⟩), ("u3", ⟨"c", "s3"⟩),
   ("u4", ⟨"d", "s4"⟩), ("u5", ⟨"e", "s5"⟩), ("u6", ⟨"f", "s6"⟩)]

/-- A concrete server state whose only room is at capacity. -/
def stFull : ServerState :=
  ⟨[("R", fullRoom)], [("R", ["s1", "s2", "s3", "s4", "s5", "s6"])]⟩

/-- A concrete state: room `R` with two members on connections `s1`, `s2`. -/
def stPair : ServerState :=
  ⟨[("R", [("u", ⟨"A", "s1"⟩), ("w", ⟨"W", "s2"⟩)])], [("R", ["s1", "s2"])]⟩

/-- A concrete state: room `R` with the single member `u` on `s1`. -/
def stOne : ServerState :=
  ⟨[("R", [("u", ⟨"A", "s1"⟩)])], [("R", ["s1"])]⟩

/-- A concrete state holding a room keyed by the empty string. -/
def stEmptyKey : ServerState :=
  ⟨[("", [("u", ⟨"A", "s1"⟩)])], []⟩

/-! ### Association-list lemmas -/

theorem dlookup_mem {β : Type} {d : List (String × β)} {k : String} {v : β}
    (h : dlookup d k = some v) : (k, v) ∈ d := by
  induction d with
  | nil => simp [dlookup] at h
  | cons p rest ih =>
    obtain ⟨k1, v1⟩ := p
    rw [dlookup] at h
    split at h
    · cases h
      simp_all
    · exact List.mem_cons_of_mem _ (ih h)

theorem dlookup_dinsert_self {β : Type} (d : List (String × β)) (k : String) (v : β) :
    dlookup (dinsert d k v) k = some v := by
  induction d with
  | nil => simp [dinsert, dlookup]
  | cons p rest ih =>
    obtain ⟨k1, v1⟩ := p
    rw [dinsert]
    split
    · simp_all [dlookup]
    · rw [dlookup]
      simp_all

theorem dinsert_of_lookup_eq {β : Type} {d : List (String × β)} {k : String} {v : β}
    (h : dlookup d k = some v) : dinsert d k v = d := by
  induction d with
  | nil => simp [dlookup] at h
  | cons p rest ih =>
    obtain ⟨k1, v1⟩ := p
    rw [dlookup] at h
    rw [dinsert]
    split
    · rename_i hk
      simp only [hk, if_pos rfl] at h
      cases h
      rfl
    · rename_i hk
      rw [if_neg hk] at h
      rw [ih h]

theorem dinsert_dinsert {β : Type} (d : List (String × β)) (k : String) (v w : β) :
    dinsert (dinsert d k v) k w = dinsert d k w := by
  induction d with
  | nil => simp [dinsert]
  | cons p rest ih =>
    obtain ⟨k1, v1⟩ := p
    rw [dinsert]
    split
    · rename_i hk
      subst hk
      simp [dinsert]
    · rename_i hk
      rw [dinsert, if_neg hk, dinsert, if_neg hk, ih]

theorem dinsert_of_lookup_none {β : Type} {d : List (String × β)} {k : String}
    (h : dlookup d k = none) (v : β) : dinsert d k v = d ++ [(k, v)] := by
  induction d with
  | nil => simp [dinsert]
  | cons p rest ih =>
    obtain ⟨k1, v1⟩ := p
    rw [dlookup] at h
    rw [dinsert]
    split
    · rename_i hk
      rw [if_pos hk] at h
      cases h
    · rename_i hk
      rw [if_neg hk] at h
      rw [ih h]
      simp

theorem dlookup_append_of_none {β : Type} {d : List (String × β)} {k : String}
    (h : dlookup d k = none) (l : List (String × β)) :
    dlookup (d ++ l) k = dlookup l k := by
  induction d with
  | nil => simp
  | cons p rest ih =>
    obtain ⟨k1, v1⟩ := p
    rw [dlookup] at h
    rw [List.cons_append, dlookup]
    split at h
    · cases h
    · rename_i hk
      rw [if_neg hk]
      exact ih h

theorem derase_append_of_none {β : Type} {d : List (String × β)} {k : String}
    (h : dlookup d k = none) (v : β) : derase (d ++ [(k, v)]) k = d := by
  induction d with
  | nil => simp [derase]
  | cons p rest ih =>
    obtain ⟨k1, v1⟩ := p
    rw [dlookup] at h
    rw [List.cons_append, derase]
    split at h
    · cases h
    · rename_i hk
      rw [if_neg hk, ih h]

theorem dinsert_append_of_none {β : Type} {d : List (String × β)} {k : String}
    (h : dlookup d k = none) (x v : β) :
    dinsert (d ++ [(k, x)]) k v = d ++ [(k, v)] := by
  induction d with
  | nil => simp [dinsert]
  | cons p rest ih =>
    obtain ⟨k1, v1⟩ := p
    rw [dlookup] at h
    rw [List.cons_append, dinsert]
    split at h
    · cases h
    · rename_i hk
      rw [if_neg hk, ih h]
      simp

theorem dinsert_mem {β : Type} {d : List (String × β)} {k : String} {v : β}
    {p : String × β} (h : p ∈ dinsert d k v) : p.2 = v ∨ p ∈ d := by
  induction d with
  | nil =>
    simp [dinsert] at h
    subst h
    left
    rfl
  | cons q rest ih =>
    obtain ⟨k1, v1⟩ := q
    rw [dinsert] at h
    split at h
    · rcases List.mem_cons.mp h with h1 | h1
      · subst h1
        left
        rfl
      · right
        exact List.mem_cons_of_mem _ h1
    · rcases List.mem_cons.mp h with h1 | h1
      · subst h1
        right
        exact List.mem_cons_self _ _
      · rcases ih h1 with h2 | h2
        · left
          exact h2
        · right
          exact List.mem_cons_of_mem _ h2

theorem dinsert_length_le {β : Type} (d : List (String × β)) (k : String) (v : β) :
    (dinsert d k v).length ≤ d.length + 1 := by
  induction d with
  | nil => simp [dinsert]
  | cons p rest ih =>
    obtain ⟨k1, v1⟩ := p
    rw [dinsert]
    split
    · simp
    · simpa using Nat.succ_le_succ ih

theorem dinsert_length_of_mem {β : Type} {d : List (String × β)} {k : String} {w : β}
    (h : dlookup d k = some w) (v : β) : (dinsert d k v).length = d.length := by
  induction d with
  | nil => simp [dlookup] at h
  | cons p rest ih =>
    obtain ⟨k1, v1⟩ := p
    rw [dlookup] at h
    rw [dinsert]
    split
    · simp
    · rename_i hk
      rw [if_neg hk] at h
      simp [ih h]

theorem derase_subset {β : Type} {d : List (String × β)} {k : String}
    {p : String × β} (h : p ∈ derase d k) : p ∈ d := by
  induction d with
  | nil => simp [derase] at h
  | cons q rest ih =>
    obtain ⟨k1, v1⟩ := q
    rw [derase] at h
    split at h
    · exact List.mem_cons_of_mem _ h
    · rcases List.mem_cons.mp h with h1 | h1
      · subst h1
        exact List.mem_cons_self _ _
      · exact List.mem_cons_of_mem _ (ih h1)

theorem dinsert_ne_nil {β : Type} (d : List (String × β)) (k : String) (v : β) :
    dinsert d k v ≠ [] := by
  cases d with
  | nil => simp [dinsert]
  | cons p rest =>
    obtain ⟨k1, v1⟩ := p
    rw [dinsert]
    split <;> simp

theorem ensureRoom_of_some {reg : Registry} {r : String} {room : RoomMap}
    (h : dlookup reg r = some room) : ensureRoom reg r = reg := by
  rw [ensureRoom, dcontains, h]
  rfl

theorem preRoom_of_some {reg : Registry} {r : String} {room : RoomMap}
    (h : dlookup reg r = some room) : preRoom reg r = room := by
  rw [preRoom, ensureRoom_of_some h, h]
  rfl

theorem ensureRoom_of_none {reg : Registry} {r : String}
    (h : dlookup reg r = none) : ensureRoom reg r = reg ++ [(r, [])] := by
  rw [ensureRoom, dcontains, h]
  exact dinsert_of_lookup_none h []

theorem preRoom_of_none {reg : Registry} {r : String}
    (h : dlookup reg r = none) : preRoom reg r = [] := by
  rw [preRoom, ensureRoom_of_none h, dlookup_append_of_none h]
  simp [dlookup]

theorem sockJoin_mem {sock : SockRooms} {r : String} {x : Sid} (s : Sid)
    (h : x ∈ (dlookup sock r).getD []) :
    x ∈ (dlookup (sockJoin sock r s) r).getD [] := by
  cases hs : dlookup sock r with
  | none => simp [hs] at h
  | some l =>
    rw [hs] at h
    simp only [Option.getD_some] at h
    simp only [sockJoin, hs]
    by_cases hc : l.contains s = true
    · rw [if_pos hc, hs]
      exact h
    · rw [if_neg hc, dlookup_dinsert_self]
      simp only [Option.getD_some]
      exact List.mem_append_left _ h

theorem sockLeave_mem {sock : SockRooms} {r : String} {x s : Sid}
    (h : x ∈ (dlookup sock r).getD []) (hx : x ≠ s) :
    x ∈ (dlookup (sockLeave sock r s) r).getD [] := by
  cases hs : dlookup sock r with
  | none => simp [hs] at h
  | some l =>
    rw [hs] at h
    simp only [Option.getD_some] at h
    have hxin : x ∈ l.filter (fun y => y != s) := by
      simp only [List.mem_filter, bne_iff_ne, ne_eq, decide_eq_true_eq]
      exact ⟨h, hx⟩
    simp only [sockLeave, hs]
    by_cases hemp : (l.filter (fun y => y != s)).isEmpty = true
    · rw [List.isEmpty_iff] at hemp
      rw [hemp] at hxin
      simp at hxin
    · rw [if_neg hemp, dlookup_dinsert_self]
      simpa using hxin

theorem dlookup_cons_self {β : Type} (k : String) (w : β) (rest : List (String × β)) :
    dlookup ((k, w) :: rest) k = some w := by
  simp [dlookup]

theorem dlookup_cons_ne {β : Type} {k key : String} (h : k ≠ key) (w : β)
    (rest : List (String × β)) : dlookup ((k, w) :: rest) key = dlookup rest key := by
  simp [dlookup, h]

theorem derase_cons_self {β : Type} (k : String) (w : β) (rest : List (String × β)) :
    derase ((k, w) :: rest) k = rest := by
  simp [derase]

theorem derase_cons_ne {β : Type} {k key : String} (h : k ≠ key) (w : β)
    (rest : List (String × β)) :
    derase ((k, w) :: rest) key = (k, w) :: derase rest key := by
  simp [derase, h]

theorem dinsert_cons_self {β : Type} (k : String) (w v : β) (rest : List (String × β)) :
    dinsert ((k, w) :: rest) k v = (k, v) :: rest := by
  simp [dinsert]

theorem dinsert_cons_ne {β : Type} {k key : String} (h : k ≠ key) (w v : β)
    (rest : List (String × β)) :
    dinsert ((k, w) :: rest) key v = (k, w) :: dinsert rest key v := by
  simp [dinsert, h]

/-! ### Capacity (C1) -/

theorem ensureRoom_cap {reg : Registry} {r : String}
    (hcap : ∀ p ∈ reg, p.2.length ≤ 6) : ∀ p ∈ ensureRoom reg r, p.2.length ≤ 6 := by
  intro p hp
  rw [ensureRoom] at hp
  split at hp
  · exact hcap p hp
  · rcases dinsert_mem hp with h | h
    · rw [h]
      simp
    · exact hcap p h

theorem join_preserves_cap (st : ServerState) (sid : Sid) (r u name : String)
    (hcap : ∀ p ∈ st.rooms, p.2.length ≤ 6) :
    ∀ p ∈ (handle_join_room st sid r u name).1.rooms, p.2.length ≤ 6 := by
  intro p hp
  by_cases hfull : 6 ≤ (preRoom st.rooms r).length
  · simp only [handle_join_room, if_pos hfull] at hp
    exact ensureRoom_cap hcap p hp
  · simp only [handle_join_room, if_neg hfull] at hp
    rcases dinsert_mem hp with h | h
    · rw [h]
      calc (dinsert (preRoom st.rooms r) u ⟨name, sid⟩).length
          ≤ (preRoom st.rooms r).length + 1 := dinsert_length_le _ _ _
        _ ≤ 6 := by omega
    · exact ensureRoom_cap hcap p h

theorem runJoins_cap (evs : List (Sid × String × String × String)) (st : ServerState)
    (hcap : ∀ p ∈ st.rooms, p.2.length ≤ 6) :
    ∀ p ∈ (runJoins st evs).rooms, p.2.length ≤ 6 := by
  induction evs generalizing st with
  | nil => exact hcap
  | cons e rest ih =>
    obtain ⟨sid, r, u, n⟩ := e
    rw [runJoins]
    exact ih _ (join_preserves_cap st sid r u n hcap)

/-- C1: starting from a registry whose rooms all hold at most 6 members,
no sequence of join-room events ever pushes any room above 6 members; and
a join addressed to a room that already holds exactly 6 members leaves
the whole server state unchanged and emits exactly one room-full notice,
addressed to the requesting connection only. -/
theorem join_room_capacity (st : ServerState)
    (evs : List (Sid × String × String × String))
    (sid : Sid) (r u name : String)
    (hcap : ∀ p ∈ st.rooms, p.2.length ≤ 6) :
    (∀ p ∈ (runJoins st evs).rooms, p.2.length ≤ 6) ∧
    (∀ room, dlookup st.rooms r = some room → room.length = 6 →
      (handle_join_room st sid r u name).1 = st ∧
      (handle_join_room st sid r u name).2 =
        [⟨"room-full", Payload.text "Room is full (max 6 users)", [sid]⟩]) := by
  constructor
  · exact runJoins_cap evs st hcap
  · intro room hr h6
    have hfull : 6 ≤ (preRoom st.rooms r).length := by
      rw [preRoom_of_some hr, h6]
    constructor
    · simp only [handle_join_room, if_pos hfull, ensureRoom_of_some hr]
    · simp only [handle_join_room, if_pos hfull]

/-- Witness for join_room_capacity: a concrete full room rejects a 7th
join unchanged. -/
theorem join_room_capacity_witness :
    (∀ p ∈ stFull.rooms, p.2.length ≤ 6) ∧
    (∀ p ∈ (runJoins stFull [("s7", "R", "u7", "g")]).rooms, p.2.length ≤ 6) ∧
    (handle_join_room stFull "s7" "R" "u7" "g").1 = stFull ∧
    (handle_join_room stFull "s7" "R" "u7" "g").2 =
      [⟨"room-full", Payload.text "Room is full (max 6 users)", ["s7"]⟩] := by
  have hcap : ∀ p ∈ stFull.rooms, p.2.length ≤ 6 := by decide
  have h := join_room_capacity stFull [("s7", "R", "u7", "g")] "s7" "R" "u7" "g" hcap
  exact ⟨hcap, h.1, (h.2 fullRoom (by decide) (by decide)).1,
         (h.2 fullRoom (by decide) (by decide)).2⟩

/-! ### No empty room persists (C2) -/

theorem join_no_empty (st : ServerState) (sid : Sid) (r u name : String)
    (h : ∀ p ∈ st.rooms, p.2 ≠ []) :
    ∀ p ∈ (handle_join_room st sid r u name).1.rooms, p.2 ≠ [] := by
  intro p hp
  by_cases hfull : 6 ≤ (preRoom st.rooms r).length
  · cases hr : dlookup st.rooms r with
    | none =>
      rw [preRoom_of_none hr] at hfull
      simp at hfull
    | some room =>
      simp only [handle_join_room, if_pos hfull, ensureRoom_of_some hr] at hp
      exact h p hp
  · cases hr : dlookup st.rooms r with
    | some room =>
      simp only [handle_join_room, if_neg hfull, ensureRoom_of_some hr] at hp
      rcases dinsert_mem hp with h1 | h1
      · rw [h1]
        exact dinsert_ne_nil _ _ _
      · exact h p h1
    | none =>
      simp only [handle_join_room, if_neg hfull, ensureRoom_of_none hr,
        dinsert_append_of_none hr] at hp
      rcases List.mem_append.mp hp with h2 | h2
      · exact h p h2
      · rw [List.mem_singleton.mp h2]
        exact dinsert_ne_nil _ _ _

theorem leave_no_empty (st : ServerState) (sid : Sid) (r u : String)
    (h : ∀ p ∈ st.rooms, p.2 ≠ []) :
    ∀ p ∈ (handle_leave_room st sid r u).1.rooms, p.2 ≠ [] := by
  intro p hp
  cases hr : dlookup st.rooms r with
  | none =>
    simp only [handle_leave_room, hr] at hp
    exact h p hp
  | some room =>
    cases hu : dlookup room u with
    | none =>
      simp only [handle_leave_room, hr, hu] at hp
      exact h p hp
    | some info =>
      simp only [handle_leave_room, hr, hu] at hp
      split at hp
      · exact h p (derase_subset hp)
      · rename_i hemp
        rcases dinsert_mem hp with h1 | h1
        · rw [h1]
          intro hc
          rw [hc] at hemp
          simp at hemp
        · exact h p h1

theorem removeBySid_no_empty (reg : Registry) (s : Sid)
    (h : ∀ p ∈ reg, p.2 ≠ []) : ∀ p ∈ (removeBySid reg s).1, p.2 ≠ [] := by
  induction reg with
  | nil =>
    intro p hp
    simp [removeBySid] at hp
  | cons q rest ih =>
    obtain ⟨r, room⟩ := q
    intro p hp
    cases hf : findUser room s with
    | some pr =>
      obtain ⟨u, name⟩ := pr
      simp only [removeBySid, hf] at hp
      split at hp
      · exact h p (List.mem_cons_of_mem _ hp)
      · rename_i hemp
        rcases List.mem_cons.mp hp with h1 | h1
        · rw [h1]
          show derase room u ≠ []
          intro hc
          rw [hc] at hemp
          simp at hemp
        · exact h p (List.mem_cons_of_mem _ h1)
    | none =>
      simp only [removeBySid, hf] at hp
      rcases List.mem_cons.mp hp with h1 | h1
      · rw [h1]
        exact h (r, room) (List.mem_cons_self _ _)
      · exact ih (fun q hq => h q (List.mem_cons_of_mem _ hq)) p h1

theorem disconnect_no_empty (st : ServerState) (s : Sid)
    (h : ∀ p ∈ st.rooms, p.2 ≠ []) :
    ∀ p ∈ (handle_disconnect st s).1.rooms, p.2 ≠ [] := by
  intro p hp
  cases hq : removeBySid st.rooms s with
  | mk rooms2 res =>
    cases res with
    | none =>
      simp only [handle_disconnect, hq] at hp
      exact h p hp
    | some t =>
      obtain ⟨r, u, name⟩ := t
      simp only [handle_disconnect, hq] at hp
      have h2 := removeBySid_no_empty st.rooms s h p
      rw [hq] at h2
      exact h2 hp

/-- C2: if no room of the registry is empty, then after any single
join-room, leave-room or disconnect operation no room of the registry is
empty — a member removal that empties its room deletes the room within
the same operation. -/
theorem no_empty_room_preserved (st : ServerState) (sid sid2 : Sid)
    (r u name r2 u2 : String) (s : Sid)
    (h : ∀ p ∈ st.rooms, p.2 ≠ []) :
    (∀ p ∈ (handle_join_room st sid r u name).1.rooms, p.2 ≠ []) ∧
    (∀ p ∈ (handle_leave_room st sid2 r2 u2).1.rooms, p.2 ≠ []) ∧
    (∀ p ∈ (handle_disconnect st s).1.rooms, p.2 ≠ []) :=
  ⟨join_no_empty st sid r u name h, leave_no_empty st sid2 r2 u2 h,
   disconnect_no_empty st s h⟩

/-- Witness for no_empty_room_preserved: the last member leaving room `R`
deletes the room. -/
theorem no_empty_room_preserved_witness :
    (∀ p ∈ stOne.rooms, p.2 ≠ []) ∧
    (∀ p ∈ (handle_leave_room stOne "s1" "R" "u").1.rooms, p.2 ≠ []) ∧
    (handle_leave_room stOne "s1" "R" "u").1.rooms = [] := by
  have h : ∀ p ∈ stOne.rooms, p.2 ≠ [] := by decide
  exact ⟨h, (no_empty_room_preserved stOne "s1" "s1" "R" "u" "A" "R" "u" "s1" h).2.1,
         by decide⟩

/-! ### Join notifications (C3) -/

/-- C3: a join into a non-full room emits exactly one existing-users
message, addressed to the joiner only and carrying the (userId, username)
pairs of the members as they were before the insertion, followed by one
user-joined broadcast whose recipients never include the joiner and do
include every other member whose connection is subscribed to the room. -/
theorem join_room_notifications (st : ServerState) (sid : Sid) (r u name : String)
    (hlen : (preRoom st.rooms r).length < 6) :
    (handle_join_room st sid r u name).2 =
      [⟨"existing-users",
        Payload.userList ((preRoom st.rooms r).map (fun p => (p.1, p.2.username))),
        [sid]⟩,
       ⟨"user-joined", Payload.userInfo u name,
        ((dlookup (sockJoin st.sock r sid) r).getD []).filter (fun x => x != sid)⟩] ∧
    sid ∉ ((dlookup (sockJoin st.sock r sid) r).getD []).filter (fun x => x != sid) ∧
    (∀ q ∈ preRoom st.rooms r,
      q.2.sid ∈ (dlookup st.sock r).getD [] → q.2.sid ≠ sid →
      q.2.sid ∈ ((dlookup (sockJoin st.sock r sid) r).getD []).filter
        (fun x => x != sid)) := by
  have hfull : ¬ 6 ≤ (preRoom st.rooms r).length := by omega
  refine ⟨?_, ?_, ?_⟩
  · simp only [handle_join_room, if_neg hfull]
  · intro hmem
    rw [List.mem_filter] at hmem
    simp at hmem
  · intro q hq hin hne
    rw [List.mem_filter]
    refine ⟨sockJoin_mem sid hin, ?_⟩
    simpa using hne

/-- Witness for join_room_notifications: a second user joins the
one-member room and the first member receives the broadcast. -/
theorem join_room_notifications_witness :
    (preRoom stOne.rooms "R").length < 6 ∧
    (handle_join_room stOne "s2" "R" "w" "W").2 =
      [⟨"existing-users", Payload.userList [("u", "A")], ["s2"]⟩,
       ⟨"user-joined", Payload.userInfo "w" "W", ["s1"]⟩] ∧
    "s1" ∈ ((dlookup (sockJoin stOne.sock "R" "s2") "R").getD []).filter
      (fun x => x != "s2") := by
  have h := join_room_notifications stOne "s2" "R" "w" "W" (by decide)
  refine ⟨by decide, ?_, ?_⟩
  · rw [h.1]
    decide
  · exact h.2.2 ("u", ⟨"A", "s1"⟩) (by decide) (by decide) (by decide)

/-! ### Join then leave (C4) -/

/-- C4 as literally stated fails on a registry already holding an
(unreachable) empty room: joining it and immediately leaving deletes the
room, so the pre-join registry is not restored. -/
theorem join_then_leave_counterexample :
    (handle_leave_room
        (handle_join_room ⟨[("R", [])], []⟩ "s1" "R" "u" "A").1 "s1" "R" "u").1.rooms
      ≠ [("R", [])] := by decide

/-- C4 amended: on a registry none of whose rooms is empty (the code's
invariant), a join-room for a (roomId, userId) whose userId is not yet a
member, followed immediately by a leave-room for the same pair, yields a
registry equal to the pre-join registry; in particular a room created by
the join is deleted again by the leave. -/
theorem join_then_leave_restores (st : ServerState) (sid sid2 : Sid) (r u name : String)
    (hne : ∀ p ∈ st.rooms, p.2 ≠ [])
    (hnm : ∀ room, dlookup st.rooms r = some room → dlookup room u = none) :
    (handle_leave_room (handle_join_room st sid r u name).1 sid2 r u).1.rooms
      = st.rooms := by
  cases hr : dlookup st.rooms r with
  | none =>
    have hfull : ¬ 6 ≤ (preRoom st.rooms r).length := by
      rw [preRoom_of_none hr]
      simp
    have hjoin : (handle_join_room st sid r u name).1.rooms =
        st.rooms ++ [(r, [(u, ⟨name, sid⟩)])] := by
      simp only [handle_join_room, if_neg hfull]
      rw [ensureRoom_of_none hr, preRoom_of_none hr, dinsert_append_of_none hr]
      simp [dinsert]
    have hlook : dlookup (handle_join_room st sid r u name).1.rooms r =
        some [(u, ⟨name, sid⟩)] := by
      rw [hjoin, dlookup_append_of_none hr, dlookup_cons_self]
    have hlu : dlookup [(u, (⟨name, sid⟩ : MemberInfo))] u = some ⟨name, sid⟩ :=
      dlookup_cons_self u _ []
    simp only [handle_leave_room, hlook, hlu, derase_cons_self, List.isEmpty_nil,
      if_true]
    rw [hjoin, derase_append_of_none hr]
  | some room0 =>
    have hnm0 : dlookup room0 u = none := hnm room0 hr
    have hroomne : room0 ≠ [] := hne (r, room0) (dlookup_mem hr)
    by_cases hfull : 6 ≤ (preRoom st.rooms r).length
    · have hj : (handle_join_room st sid r u name).1 = st := by
        simp only [handle_join_room, if_pos hfull, ensureRoom_of_some hr]
      rw [hj]
      simp only [handle_leave_room, hr, hnm0]
    · have hpre : preRoom st.rooms r = room0 := preRoom_of_some hr
      have hfull0 : ¬ 6 ≤ room0.length := by
        rw [hpre] at hfull
        exact hfull
      have hjoin : (handle_join_room st sid r u name).1.rooms =
          dinsert st.rooms r (room0 ++ [(u, ⟨name, sid⟩)]) := by
        simp only [handle_join_room, ensureRoom_of_some hr, hpre,
          dinsert_of_lookup_none hnm0, if_neg hfull0]
      have hlook : dlookup (handle_join_room st sid r u name).1.rooms r =
          some (room0 ++ [(u, ⟨name, sid⟩)]) := by
        rw [hjoin, dlookup_dinsert_self]
      have hlu : dlookup (room0 ++ [(u, (⟨name, sid⟩ : MemberInfo))]) u =
          some ⟨name, sid⟩ := by
        rw [dlookup_append_of_none hnm0, dlookup_cons_self]
      simp only [handle_leave_room, hlook, hlu]
      rw [derase_append_of_none hnm0]
      have hie : room0.isEmpty = false := by
        cases room0 with
        | nil => exact absurd rfl hroomne
        | cons a l => rfl
      rw [hie]
      simp only [Bool.false_eq_true, if_false]
      rw [hjoin, dinsert_dinsert, dinsert_of_lookup_eq hr]

/-- Witness for join_then_leave_restores: user `w` joins fresh room `R2`
of stOne and leaves again; the registry is exactly stOne.rooms. -/
theorem join_then_leave_restores_witness :
    (∀ p ∈ stOne.rooms, p.2 ≠ []) ∧
    (handle_leave_room (handle_join_room stOne "s2" "R2" "w" "W").1 "s2" "R2" "w").1.rooms
      = stOne.rooms := by
  have h0 : dlookup stOne.rooms "R2" = none := by decide
  refine ⟨by decide, ?_⟩
  exact join_then_leave_restores stOne "s2" "s2" "R2" "w" "W" (by decide)
    (fun room hroom => by rw [h0] at hroom; exact Option.noConfusion hroom)

/-! ### Leave vs disconnect (C5) -/

theorem findUser_none {room : RoomMap} {s : Sid}
    (h : ∀ q ∈ room, q.2.sid ≠ s) : findUser room s = none := by
  induction room with
  | nil => rfl
  | cons q rest ih =>
    obtain ⟨u1, i1⟩ := q
    rw [findUser, if_neg (h (u1, i1) (List.mem_cons_self _ _))]
    exact ih (fun q hq => h q (List.mem_cons_of_mem _ hq))

theorem findUser_eq {room : RoomMap} {u : String} {info : MemberInfo} {s : Sid}
    (hmem : (u, info) ∈ room) (hsid : info.sid = s)
    (huniq : ∀ q ∈ room, q.2.sid = s → q = (u, info)) :
    findUser room s = some (u, info.username) := by
  induction room with
  | nil => simp at hmem
  | cons q rest ih =>
    obtain ⟨u1, i1⟩ := q
    by_cases h1 : i1.sid = s
    · have h2 := huniq (u1, i1) (List.mem_cons_self _ _) h1
      rw [Prod.mk.injEq] at h2
      obtain ⟨h3, h4⟩ := h2
      subst h3
      subst h4
      rw [findUser, if_pos h1]
    · rw [findUser, if_neg h1]
      have hmem2 : (u, info) ∈ rest := by
        rcases List.mem_cons.mp hmem with h2 | h2
        · exfalso
          apply h1
          rw [show i1 = info from (Prod.mk.injEq _ _ _ _).mp h2.symm |>.2]
          exact hsid
        · exact h2
      exact ih hmem2 (fun q hq => huniq q (List.mem_cons_of_mem _ hq))

theorem removeBySid_found {reg : Registry} {r u : String} {room : RoomMap}
    {info : MemberInfo} {s : Sid}
    (hr : dlookup reg r = some room)
    (hu : (u, info) ∈ room)
    (hsid : info.sid = s)
    (huniq : ∀ p ∈ reg, ∀ q ∈ p.2, q.2.sid = s → p.1 = r ∧ q = (u, info)) :
    removeBySid reg s =
      ((if (derase room u).isEmpty then derase reg r
        else dinsert reg r (derase room u)),
       some (r, u, info.username)) := by
  induction reg with
  | nil => exact absurd hr Option.noConfusion
  | cons p rest ih =>
    obtain ⟨r1, room1⟩ := p
    by_cases hk : r1 = r
    · subst hk
      rw [dlookup_cons_self] at hr
      have hroom : room1 = room := Option.some.inj hr
      subst hroom
      have hfind : findUser room1 s = some (u, info.username) :=
        findUser_eq hu hsid
          (fun q hq hqs => (huniq (r1, room1) (List.mem_cons_self _ _) q hq hqs).2)
      simp only [removeBySid, hfind, derase_cons_self, dinsert_cons_self]
    · rw [dlookup_cons_ne hk] at hr
      have hfind : findUser room1 s = none := by
        apply findUser_none
        intro q hq hqs
        exact hk ((huniq (r1, room1) (List.mem_cons_self _ _) q hq hqs).1)
      have ih2 := ih hr
        (fun p hp q hq hqs => huniq p (List.mem_cons_of_mem _ hp) q hq hqs)
      simp only [removeBySid, hfind, ih2, derase_cons_ne hk, dinsert_cons_ne hk]
      by_cases hemp : (derase room u).isEmpty = true
      · simp [hemp]
      · simp [hemp]

theorem dlookup_of_mem_nodup {β : Type} {d : List (String × β)} {p : String × β}
    (hnd : (d.map (fun q => q.1)).Nodup) (hp : p ∈ d) : dlookup d p.1 = some p.2 := by
  induction d with
  | nil => simp at hp
  | cons q rest ih =>
    obtain ⟨k1, v1⟩ := q
    rcases List.mem_cons.mp hp with h1 | h1
    · subst h1
      exact dlookup_cons_self _ _ _
    · have hk : k1 ≠ p.1 := by
        intro hc
        rw [List.map_cons, List.nodup_cons] at hnd
        exact hnd.1 (hc ▸ List.mem_map.mpr ⟨p, h1, rfl⟩)
      rw [dlookup_cons_ne hk]
      exact ih (List.nodup_cons.mp (by simpa using hnd)).2 h1

/-- C5: when connection `s` is a member of exactly one room (the
user/room pair (r, u), with unique keys in the registry), the abrupt
disconnect of `s` and the graceful leave-room sent by `s` for (r, u)
produce the same resulting registry, and both emit exactly one user-left
message with the removed member's userId and username, delivered to every
remaining member of the room whose connection is subscribed to it. -/
theorem leave_disconnect_agree (st : ServerState) (s : Sid) (r u : String)
    (room : RoomMap) (info : MemberInfo)
    (hndr : (st.rooms.map (fun p => p.1)).Nodup)
    (hndu : ∀ p ∈ st.rooms, (p.2.map (fun q => q.1)).Nodup)
    (hr : dlookup st.rooms r = some room)
    (hu : dlookup room u = some info)
    (hs : info.sid = s)
    (huniq : ∀ p ∈ st.rooms, ∀ q ∈ p.2, q.2.sid = s → p.1 = r ∧ q.1 = u) :
    (handle_disconnect st s).1.rooms = (handle_leave_room st s r u).1.rooms ∧
    (handle_leave_room st s r u).2 =
      [⟨"user-left", Payload.userInfo u info.username,
        (dlookup (sockLeave st.sock r s) r).getD []⟩] ∧
    (handle_disconnect st s).2 =
      [⟨"user-left", Payload.userInfo u info.username, (dlookup st.sock r).getD []⟩] ∧
    (∀ q ∈ derase room u, q.2.sid ∈ (dlookup st.sock r).getD [] → q.2.sid ≠ s →
      (q.2.sid ∈ (dlookup (sockLeave st.sock r s) r).getD [] ∧
       q.2.sid ∈ (dlookup st.sock r).getD [])) := by
  have huniq2 : ∀ p ∈ st.rooms, ∀ q ∈ p.2, q.2.sid = s → p.1 = r ∧ q = (u, info) := by
    intro p hp q hq hqs
    obtain ⟨h1, h2⟩ := huniq p hp q hq hqs
    refine ⟨h1, ?_⟩
    have hpr : p.2 = room := by
      have := dlookup_of_mem_nodup hndr hp
      rw [h1, hr] at this
      exact (Option.some.inj this).symm
    have hq2 : dlookup room q.1 = some q.2 :=
      hpr ▸ dlookup_of_mem_nodup (hndu p hp) hq
    rw [h2, hu] at hq2
    rw [show q = (q.1, q.2) from rfl, h2, Option.some.inj hq2]
  have hrm := removeBySid_found hr (dlookup_mem hu) hs huniq2
  refine ⟨?_, ?_, ?_, ?_⟩
  · simp only [handle_disconnect, hrm, handle_leave_room, hr, hu]
  · simp only [handle_leave_room, hr, hu]
  · simp only [handle_disconnect, hrm]
  · intro q hq hin hne
    exact ⟨sockLeave_mem hin hne, hin⟩

/-- Witness for leave_disconnect_agree in the two-member room stPair:
disconnecting `s1` and `s1` leaving agree, and `s2` receives both
broadcasts. -/
theorem leave_disconnect_agree_witness :
    dlookup stPair.rooms "R" = some [("u", ⟨"A", "s1"⟩), ("w", ⟨"W", "s2"⟩)] ∧
    (handle_disconnect stPair "s1").1.rooms = (handle_leave_room stPair "s1" "R" "u").1.rooms ∧
    (handle_leave_room stPair "s1" "R" "u").2 =
      [⟨"user-left", Payload.userInfo "u" "A",
        (dlookup (sockLeave stPair.sock "R" "s1") "R").getD []⟩] ∧
    (handle_disconnect stPair "s1").2 =
      [⟨"user-left", Payload.userInfo "u" "A", (dlookup stPair.sock "R").getD []⟩] ∧
    ("s2" ∈ (dlookup (sockLeave stPair.sock "R" "s1") "R").getD [] ∧
     "s2" ∈ (dlookup stPair.sock "R").getD []) := by
  have h := leave_disconnect_agree stPair "s1" "R" "u"
    [("u", ⟨"A", "s1"⟩), ("w", ⟨"W", "s2"⟩)] ⟨"A", "s1"⟩
    (by decide) (by decide) (by decide) (by decide) (by decide) (by decide)
  exact ⟨by decide, h.1, h.2.1, h.2.2.1,
         h.2.2.2 ("w", ⟨"W", "s2"⟩) (by decide) (by decide) (by decide)⟩

/-! ### Relay drop (C6) and relay delivery (C7) -/

/-- C6: an offer, answer or ice-candidate relay whose roomId is absent
from the registry or whose targetUserId is not a member of the room
changes nothing and emits no message to anyone. -/
theorem relay_unknown_target_dropped (st : ServerState) (r tu fu fn pl : String)
    (h : ∀ room, dlookup st.rooms r = some room → dlookup room tu = none) :
    handle_offer st r tu fu fn pl = (st, []) ∧
    handle_answer st r tu fu pl = (st, []) ∧
    handle_ice_candidate st r tu fu pl = (st, []) := by
  refine ⟨?_, ?_, ?_⟩ <;>
    cases hr : dlookup st.rooms r with
    | none => simp [handle_offer, handle_answer, handle_ice_candidate, hr]
    | some room =>
      simp [handle_offer, handle_answer, handle_ice_candidate, hr, h room hr]

/-- Witness for relay_unknown_target_dropped: relays addressed to a user
not in the room of stOne are dropped. -/
theorem relay_unknown_target_dropped_witness :
    dlookup [("u", (⟨"A", "s1"⟩ : MemberInfo))] "w" = none ∧
    handle_offer stOne "R" "w" "u" "A" "sdp" = (stOne, []) ∧
    handle_answer stOne "R" "w" "u" "sdp" = (stOne, []) ∧
    handle_ice_candidate stOne "R" "w" "u" "cand" = (stOne, []) := by
  have h := relay_unknown_target_dropped stOne "R" "w" "u" "A" "sdp"
    (fun room hroom => by
      have h0 : dlookup stOne.rooms "R" = some [("u", ⟨"A", "s1"⟩)] := by decide
      rw [h0] at hroom
      rw [← Option.some.inj hroom]
      decide)
  refine ⟨by decide, h.1, ?_, ?_⟩
  · exact (relay_unknown_target_dropped stOne "R" "w" "u" "A" "sdp"
      (fun room hroom => by
        have h0 : dlookup stOne.rooms "R" = some [("u", ⟨"A", "s1"⟩)] := by decide
        rw [h0] at hroom
        rw [← Option.some.inj hroom]
        decide)).2.1
  · exact h.2.2

/-- C7: a relay whose roomId and targetUserId resolve to a member is
delivered to exactly the connection stored for that member; the offer
payload carries the opaque payload, fromUserId and fromUsername, while
answer and ice-candidate carry only the payload and fromUserId. -/
theorem relay_delivers_to_target (st : ServerState) (r tu fu fn pl : String)
    (room : RoomMap) (info : MemberInfo)
    (hr : dlookup st.rooms r = some room) (hu : dlookup room tu = some info) :
    handle_offer st r tu fu fn pl =
      (st, [⟨"offer", Payload.relay pl fu (some fn), [info.sid]⟩]) ∧
    handle_answer st r tu fu pl =
      (st, [⟨"answer", Payload.relay pl fu none, [info.sid]⟩]) ∧
    handle_ice_candidate st r tu fu pl =
      (st, [⟨"ice-candidate", Payload.relay pl fu none, [info.sid]⟩]) := by
  refine ⟨?_, ?_, ?_⟩ <;>
    simp [handle_offer, handle_answer, handle_ice_candidate, hr, hu]

/-- Witness for relay_delivers_to_target: relays to `w` in stPair reach
exactly the connection s2. -/
theorem relay_delivers_to_target_witness :
    dlookup stPair.rooms "R" = some [("u", ⟨"A", "s1"⟩), ("w", ⟨"W", "s2"⟩)] ∧
    handle_offer stPair "R" "w" "u" "A" "sdp" =
      (stPair, [⟨"offer", Payload.relay "sdp" "u" (some "A"), ["s2"]⟩]) ∧
    handle_answer stPair "R" "w" "u" "sdp" =
      (stPair, [⟨"answer", Payload.relay "sdp" "u" none, ["s2"]⟩]) ∧
    handle_ice_candidate stPair "R" "w" "u" "cand" =
      (stPair, [⟨"ice-candidate", Payload.relay "cand" "u" none, ["s2"]⟩]) := by
  have ho := relay_delivers_to_target stPair "R" "w" "u" "A" "sdp"
    [("u", ⟨"A", "s1"⟩), ("w", ⟨"W", "s2"⟩)] ⟨"W", "s2"⟩ (by decide) (by decide)
  have hc := relay_delivers_to_target stPair "R" "w" "u" "A" "cand"
    [("u", ⟨"A", "s1"⟩), ("w", ⟨"W", "s2"⟩)] ⟨"W", "s2"⟩ (by decide) (by decide)
  exact ⟨by decide, ho.1, ho.2.1, hc.2.2⟩

/-! ### Room info (C8, C10) -/

/-- C8 as literally stated fails when a room keyed by the empty string is
present: the handler tests truthiness before membership, so the present
one-member room gets the zeroed reply instead of its member count. -/
theorem get_room_info_empty_key_counterexample :
    dlookup stEmptyKey.rooms "" = some [("u", ⟨"A", "s1"⟩)] ∧
    ([("u", (⟨"A", "s1"⟩ : MemberInfo))] : RoomMap).length = 1 ∧
    (handle_get_room_info stEmptyKey "s2" (some "")).2 =
      [⟨"room-info", Payload.roomInfo (some "") 0 [], ["s2"]⟩] := by decide

/-- C8 amended: a get-room-info whose roomId is absent from the payload,
the empty string, or a non-empty string not present in the registry gets
the zeroed room-info reply (and never an error); for a non-empty-string
roomId that is present, the reply carries the room's member count and
member usernames. -/
theorem get_room_info_reply (st : ServerState) (sid : Sid) (roomId : Option String) :
    ((∀ r, roomId = some r → r ≠ "" → dlookup st.rooms r = none) →
      handle_get_room_info st sid roomId =
        (st, [⟨"room-info", Payload.roomInfo roomId 0 [], [sid]⟩])) ∧
    (∀ r room, roomId = some r → r ≠ "" → dlookup st.rooms r = some room →
      handle_get_room_info st sid roomId =
        (st, [⟨"room-info",
               Payload.roomInfo roomId room.length (room.map (fun p => p.2.username)),
               [sid]⟩])) := by
  constructor
  · intro h
    cases roomId with
    | none => simp [handle_get_room_info, pyTruthy]
    | some r =>
      by_cases hre : r = ""
      · subst hre
        simp [handle_get_room_info, pyTruthy]
      · have h0 : dlookup st.rooms r = none := h r rfl hre
        have ht : pyTruthy (some r) = true := by
          simp [pyTruthy]
          exact hre
        simp [handle_get_room_info, ht, h0]
  · intro r room hrq hre h0
    subst hrq
    have ht : pyTruthy (some r) = true := by
      simp [pyTruthy]
      exact hre
    simp [handle_get_room_info, ht, h0]

/-- Witness for get_room_info_reply: the unknown room `Q` gets the zeroed
reply, and room `R` of stPair reports 2 users. -/
theorem get_room_info_reply_witness :
    dlookup stPair.rooms "Q" = none ∧
    handle_get_room_info stPair "s9" (some "Q") =
      (stPair, [⟨"room-info", Payload.roomInfo (some "Q") 0 [], ["s9"]⟩]) ∧
    handle_get_room_info stPair "s9" (some "R") =
      (stPair, [⟨"room-info", Payload.roomInfo (some "R") 2 ["A", "W"], ["s9"]⟩]) := by
  have h := get_room_info_reply stPair "s9" (some "Q")
  have h2 := get_room_info_reply stPair "s9" (some "R")
  refine ⟨by decide, ?_, ?_⟩
  · exact h.1 (fun r hr hne => by
      rw [← Option.some.inj hr]
      decide)
  · have := h2.2 "R" [("u", ⟨"A", "s1"⟩), ("w", ⟨"W", "s2"⟩)] rfl (by decide) (by decide)
    rw [this]
    decide

/-- C10: a get-room-info whose roomId is falsy (absent from the payload
or the empty string) always gets the zeroed room-info reply, even when a
room keyed by the empty string is present in the registry with members,
because the handler tests truthiness before looking the room up. -/
theorem get_room_info_falsy_zeroed (st : ServerState) (sid : Sid)
    (roomId : Option String) (h : pyTruthy roomId = false) :
    handle_get_room_info st sid roomId =
      (st, [⟨"room-info", Payload.roomInfo roomId 0 [], [sid]⟩]) := by
  simp [handle_get_room_info, h]

/-- Witness for get_room_info_falsy_zeroed: the empty-string roomId gets
the zeroed reply although the room keyed "" exists in stEmptyKey and has
one member. -/
theorem get_room_info_falsy_zeroed_witness :
    pyTruthy (some "") = false ∧
    dcontains stEmptyKey.rooms "" = true ∧
    handle_get_room_info stEmptyKey "s2" (some "") =
      (stEmptyKey, [⟨"room-info", Payload.roomInfo (some "") 0 [], ["s2"]⟩]) :=
  ⟨by decide, by decide, get_room_info_falsy_zeroed stEmptyKey "s2" (some "") (by decide)⟩

/-! ### Duplicate join (C9) -/

/-- C9 as literally stated fails: the duplicate join does overwrite the
stored connection, but the old connection, still subscribed to the room's
broadcast group, receives the user-joined broadcast (its sid "s1" is a
recipient), so a notification is sent to the old connection. -/
theorem rejoin_notifies_old_connection :
    (handle_join_room stOne "s2" "R" "u" "A2").2 =
      [⟨"existing-users", Payload.userList [("u", "A")], ["s2"]⟩,
       ⟨"user-joined", Payload.userInfo "u" "A2", ["s1"]⟩] ∧
    (handle_join_room stOne "s2" "R" "u" "A2").1.rooms =
      [("R", [("u", ⟨"A2", "s2"⟩)])] := by decide

/-- C9 amended: a join-room whose userId is already a member of the
(non-full) room overwrites the stored connection id and username in
place: the member count is unchanged and the old connection id is
discarded from the registry; no message is addressed individually to the
old connection, but when the old connection is still subscribed to the
room it does receive the room-wide user-joined broadcast (only the new
connection id is skipped). -/
theorem rejoin_overwrites (st : ServerState) (sid : Sid) (r u name : String)
    (room : RoomMap) (oldInfo : MemberInfo)
    (hr : dlookup st.rooms r = some room)
    (hu : dlookup room u = some oldInfo)
    (hlen : room.length < 6) :
    (handle_join_room st sid r u name).1.rooms =
      dinsert st.rooms r (dinsert room u ⟨name, sid⟩) ∧
    (dinsert room u ⟨name, sid⟩).length = room.length ∧
    dlookup (dinsert room u ⟨name, sid⟩) u = some ⟨name, sid⟩ ∧
    (oldInfo.sid ∈ (dlookup st.sock r).getD [] → oldInfo.sid ≠ sid →
      oldInfo.sid ∈ ((dlookup (sockJoin st.sock r sid) r).getD []).filter
        (fun x => x != sid)) := by
  have hpre : preRoom st.rooms r = room := preRoom_of_some hr
  have hfull0 : ¬ 6 ≤ room.length := by omega
  refine ⟨?_, ?_, ?_, ?_⟩
  · simp only [handle_join_room, ensureRoom_of_some hr, hpre, if_neg hfull0]
  · exact dinsert_length_of_mem hu _
  · exact dlookup_dinsert_self _ _ _
  · intro hin hne
    rw [List.mem_filter]
    refine ⟨sockJoin_mem sid hin, ?_⟩
    simpa using hne

/-- Witness for rejoin_overwrites at stOne: user `u` rejoins from the new
connection s2; count stays 1, the stored sid becomes s2, and the old
connection s1 receives the broadcast. -/
theorem rejoin_overwrites_witness :
    dlookup stOne.rooms "R" = some [("u", ⟨"A", "s1"⟩)] ∧
    (handle_join_room stOne "s2" "R" "u" "A2").1.rooms =
      dinsert stOne.rooms "R" (dinsert [("u", ⟨"A", "s1"⟩)] "u" ⟨"A2", "s2"⟩) ∧
    (dinsert [("u", (⟨"A", "s1"⟩ : MemberInfo))] "u" ⟨"A2", "s2"⟩).length = 1 ∧
    dlookup (dinsert [("u", (⟨"A", "s1"⟩ : MemberInfo))] "u" ⟨"A2", "s2"⟩) "u" =
      some ⟨"A2", "s2"⟩ ∧
    "s1" ∈ ((dlookup (sockJoin stOne.sock "R" "s2") "R").getD []).filter
      (fun x => x != "s2") := by
  have h := rejoin_overwrites stOne "s2" "R" "u" "A2" [("u", ⟨"A", "s1"⟩)]
    ⟨"A", "s1"⟩ (by decide) (by decide) (by decide)
  exact ⟨by decide, h.1, h.2.1, h.2.2.1, h.2.2.2 (by decide) (by decide)⟩
